import Mathlib

/-!
Verification development for the Tudat Kepler-propagator unit test
(`Astrodynamics/Propagators/unitTestKeplerPropagator.cpp`) and the
spec of the Kepler-propagator core it exercises.

The visible source is the test harness `unit_tests::testKeplerPropagator`.
We embed it shallowly:

* doubles become rationals (the harness only uses exact arithmetic:
  literals, multiplication by 1000, division by 1000, sums of absolute
  values, comparisons);
* the benchmark input stream (`std::ifstream`) becomes an explicit
  stream state carrying the remaining whitespace-separated numbers plus
  the `failbit` and `eofbit` flags, with C++ formatted-extraction
  semantics: an extraction on a stream whose `failbit` is set does
  nothing (the sentry fails and `eofbit` is never set); an extraction
  that runs out of input sets `eofbit` and `failbit` and stores 0;
* the `while ( !eof() )` loading loop becomes a fuel-indexed recursion
  returning `none` when the fuel is exhausted, so non-termination of the
  loop is observable as `none` for every fuel;
* the Kepler-propagator core, which is not part of the visible source,
  is an opaque parameter `core` mapping the SI initial state passed via
  `setInitialState` to the propagation history returned by
  `getPropagationHistoryAtFixedOutputIntervals`;
* a `State` is its coordinate accessor `state(i)`, i.e. a function
  `ℕ → ℚ`, and a propagation history map is an association list from
  the `double` key to the state.
-/

/-- A Cartesian state as accessed by the harness: component `i` of the
internal vector `state`. -/
def CState : Type := ℕ → ℚ

/-- Model of the `std::ifstream` handing out whitespace-separated
doubles: the numbers not yet consumed, plus the `failbit` and `eofbit`
status flags. A stream whose file could not be opened starts with
`failbit = true`. -/
structure IStream where
  tokens : List ℚ
  failbit : Bool
  eofbit : Bool

/-- One formatted extraction `stream >> x` of a double. If `failbit` (or
`eofbit`) is already set the sentry fails: nothing is read, `failbit` is
set, `eofbit` is untouched, and the target keeps its previous value
(modelled as the default 0). If the stream is good but has no input
left, the extraction fails at end-of-file: `eofbit` and `failbit` are
set and the target is set to 0. Otherwise the next number is consumed. -/
def readDouble (s : IStream) : ℚ × IStream :=
  if s.failbit || s.eofbit then
    (0, { s with failbit := true })
  else
    match s.tokens with
    | [] => (0, { s with failbit := true, eofbit := true })
    | v :: rest => (v, { s with tokens := rest })

/-- `n` successive formatted extractions, returning the values read (in
order) and the final stream state. -/
def readVals : ℕ → IStream → List ℚ × IStream
  | 0, s => ([], s)
  | n + 1, s =>
    let p := readDouble s
    let q := readVals n p.2
    (p.1 :: q.1, q.2)

/-- The benchmark-loading loop of `testKeplerPropagator` (the
`while ( !twoBodyKeplerData.eof( ) )` loop): each iteration extracts the
elapsed time and the six state components, stores the state under the
map key `twoBodyKeplerDataCounter * 3600.0`, and increments the counter.
The loop is indexed by fuel; `none` means the loop has not terminated
within that much fuel. -/
def loadBenchmarkData : ℕ → IStream → ℕ → Option (List (ℚ × CState))
  | 0, _, _ => none
  | fuel + 1, s, counter =>
    if s.eofbit then some []
    else
      let r := readVals 7 s
      let entry : CState := fun i => r.1.getD (i + 1) 0
      match loadBenchmarkData fuel r.2 (counter + 1) with
      | none => none
      | some rest => some (((counter : ℚ) * 3600, entry) :: rest)

/-- Modelled from the spec: the collaborator
`unit_conversions::convertKilometersToMeters` (not part of the visible
source) scales every component of the state vector by 1000. -/
def convertKilometersToMeters (s : CState) : CState :=
  fun i => s i * 1000

/-- Modelled from the spec: the collaborator
`unit_conversions::convertMetersToKilometers` (not part of the visible
source) divides every component of the state vector by 1000. -/
def convertMetersToKilometers (s : CState) : CState :=
  fun i => s i / 1000

/-- The initial state of Asterix as the harness fills it in, position in
kilometers and velocity in kilometers per second (lines 140-145). -/
def stateOfAsterixKm : CState :=
  fun i => [6.75e3, 0, 0, 0, 8.0595973215, 0].getD i 0

/-- The initial state after the harness converts it from kilometers to
meters (lines 149-151); this is the state passed to
`setInitialState`. -/
def stateOfAsterixSI : CState :=
  convertKilometersToMeters stateOfAsterixKm

/-- The fixed output interval set on the propagator (line 175). -/
def fixedOutputInterval : ℚ := 3600.0

/-- The propagation interval start set on the propagator (line 178). -/
def propagationIntervalStart : ℚ := 0.0

/-- The propagation interval end set on the propagator (line 181). -/
def propagationIntervalEnd : ℚ := 86400.0

/-- The propagation history of Asterix in SI units as returned by
`getPropagationHistoryAtFixedOutputIntervals`, where `core` is the
opaque Kepler-propagator core applied to the initial state the harness
passed to `setInitialState`. -/
def asterixHistorySI (core : CState → List (ℚ × CState)) : List (ℚ × CState) :=
  core stateOfAsterixSI

/-- The propagation history after the harness converts every stored
state from meters to kilometers (the conversion loop, lines 205-214). -/
def asterixHistoryKm (core : CState → List (ℚ × CState)) : List (ℚ × CState) :=
  (asterixHistorySI core).map (fun p => (p.1, convertMetersToKilometers p.2))

/-- The tolerance between benchmark and simulation data (line 217). -/
def toleranceBetweenBenchmarkAndSimulationData : ℚ := 1e-6

/-- `std::map < double, State* >::operator[]` on the read side: the
state stored under `key`, or a default state when the key is absent. -/
def histState (l : List (ℚ × CState)) (key : ℚ) : CState :=
  ((l.find? (fun p => decide (p.1 = key))).map Prod.snd).getD (fun _ => 0)

/-- Number of iterations of the comparison loop
`for ( unsigned int i = 0; i < getPropagationIntervalStart( ) / getFixedOutputInterval( ); i++ )`:
the naturals `i` with `(i : ℚ) < propagationIntervalStart / fixedOutputInterval`. -/
def comparisonCount : ℕ :=
  Nat.ceil (propagationIntervalStart / fixedOutputInterval)

/-- The comparison loop of `testKeplerPropagator` (lines 223-254),
including the inner loop whose counter `i` shadows the outer one: for
each of the `comparisonCount` outer iterations it sums, over the inner
`i` in `[0, 6)`, the absolute difference between simulation and
benchmark component `i` of the state at key
`i * fixedOutputInterval`, and flags the propagator erroneous when the
sum exceeds the tolerance. -/
def compareLoop (benchmark historyKm : List (ℚ × CState)) : Bool :=
  (List.range comparisonCount).foldl
    (fun isErroneous _ =>
      let differenceKeplerData : ℚ :=
        (List.range 6).foldl
          (fun d (i : ℕ) =>
            d + |histState historyKm ((i : ℚ) * fixedOutputInterval) i
                  - histState benchmark ((i : ℚ) * fixedOutputInterval) i|)
          0
      if toleranceBetweenBenchmarkAndSimulationData < differenceKeplerData then
        true
      else isErroneous)
    false

/-- Shallow embedding of `unit_tests::testKeplerPropagator`. `fileOpened`
says whether the benchmark data file could be opened (when it could not,
the harness only prints to `cerr` and falls through to the loading loop
on a stream whose `failbit` is set), `tokens` is the file's content as a
list of numbers, `core` is the opaque Kepler-propagator core, and `fuel`
bounds the loading loop; `none` means the function has not returned
within that fuel. The returned boolean is `isKeplerPropagatorErroneous`:
`false` means the test passed. -/
def testKeplerPropagator (fuel : ℕ) (fileOpened : Bool) (tokens : List ℚ)
    (core : CState → List (ℚ × CState)) : Option Bool :=
  match loadBenchmarkData fuel ⟨tokens, !fileOpened, false⟩ 0 with
  | none => none
  | some benchmarkKeplerPropagationHistory =>
    some (compareLoop benchmarkKeplerPropagationHistory (asterixHistoryKm core))

/-!
The Kepler-equation solver and the sampling loop of the propagation
engine are core components the spec describes but whose code is not in
the visible source; they are modelled from the spec below.
-/

/-- Modelled from the spec: one Newton-Raphson step on elliptic Kepler's
equation, `E_next = E - (E - e·sin(E) - M) / (1 - e·cos(E))` (§4.2).
The (transcendental) library `sin` and `cos` the code would call are
passed in as function parameters. -/
def keplerNewtonRaphsonStep (sin cos : ℚ → ℚ) (e M E : ℚ) : ℚ :=
  E - (E - e * sin E - M) / (1 - e * cos E)

/-- Modelled from the spec: the Newton-Raphson iteration loop of the
Kepler-equation solver (§4.2), counting down from the remaining
iteration budget. Each pass computes the next iterate, returns it
together with the number of iterations performed when the convergence
criterion `|E_next - E| < tolerance` is met, and otherwise continues;
`none` is the `ConvergenceError` raised when the maximum number of
iterations is exhausted without convergence. -/
def solveKeplerEquationLoop (sin cos : ℚ → ℚ) (e M tolerance : ℚ) :
    ℕ → ℚ → ℕ → Option (ℚ × ℕ)
  | 0, _, _ => none
  | remaining + 1, E, done =>
    let Enext := keplerNewtonRaphsonStep sin cos e M E
    if |Enext - E| < tolerance then some (Enext, done + 1)
    else solveKeplerEquationLoop sin cos e M tolerance remaining Enext (done + 1)

/-- Modelled from the spec: the Kepler-equation solver (§4.2) for the
elliptic branch with the initial guess `E₀ = M`, returning the converged
eccentric anomaly and the number of Newton-Raphson iterations used, or
`none` (`ConvergenceError`) when `maxIterations` is exceeded without
meeting the tolerance. -/
def solveKeplerEquation (sin cos : ℚ → ℚ) (e M tolerance : ℚ)
    (maxIterations : ℕ) : Option (ℚ × ℕ) :=
  solveKeplerEquationLoop sin cos e M tolerance maxIterations M 0

/-- Modelled from the spec: the sampling loop of `propagate()` (§4.3) —
starting at `t = intervalStart`, record a sample key and step by
`fixedOutputInterval` while `t ≤ intervalEnd`. The loop is written with
an explicit fuel bound (first argument) so it is total; the engine calls
it with enough fuel for the whole interval. -/
def buildSampleKeys (intervalEnd interval : ℚ) : ℕ → ℚ → List ℚ
  | 0, _ => []
  | fuel + 1, t =>
    if t ≤ intervalEnd then t :: buildSampleKeys intervalEnd interval fuel (t + interval)
    else []

/-- Modelled from the spec: the keys of a body's `PropagationHistory`
produced by `propagate()` (§4.3): the sampling loop run from
`intervalStart` with enough fuel to cover `[intervalStart, intervalEnd]`. -/
def propagationHistoryKeys (intervalStart intervalEnd interval : ℚ) : List ℚ :=
  buildSampleKeys intervalEnd interval
    (Nat.floor ((intervalEnd - intervalStart) / interval) + 1) intervalStart

/-- The explicit value of the benchmark history built from a stream
holding `7 * N` numbers: entry `k` (for `k ≤ N`) sits at key `k * 3600`;
the last entry is filled by failed end-of-file extractions, so its state
is the default one, independent of the file's content. -/
def loadedBenchmarkEntries : List ℚ → ℕ → ℕ → List (ℚ × CState)
  | _, counter, 0 => [((counter : ℚ) * 3600, fun _ => 0)]
  | tokens, counter, N + 1 =>
    ((counter : ℚ) * 3600, fun i => (tokens.take 7).getD (i + 1) 0)
      :: loadedBenchmarkEntries (tokens.drop 7) (counter + 1) N

/-! ### Lemmas about the stream model and the benchmark-loading loop -/

lemma readDouble_failbit (s : IStream) (h : s.failbit = true) :
    readDouble s = (0, s) := by
  obtain ⟨t, f, e⟩ := s
  simp only at h
  subst h
  simp [readDouble]

lemma readVals_failbit (n : ℕ) (s : IStream) (h : s.failbit = true) :
    readVals n s = (List.replicate n 0, s) := by
  induction n with
  | zero => simp [readVals]
  | succ n ih => simp [readVals, readDouble_failbit s h, ih, List.replicate_succ]

lemma readVals_of_le (n : ℕ) (tokens : List ℚ) (h : n ≤ tokens.length) :
    readVals n ⟨tokens, false, false⟩ =
      (tokens.take n, ⟨tokens.drop n, false, false⟩) := by
  induction n generalizing tokens with
  | zero => simp [readVals]
  | succ n ih =>
    cases tokens with
    | nil => simp at h
    | cons v rest =>
      have hr : n ≤ rest.length := by simpa using h
      simp [readVals, readDouble, ih rest hr]

lemma readVals_of_lt (n : ℕ) (tokens : List ℚ) (h : tokens.length < n) :
    readVals n ⟨tokens, false, false⟩ =
      (tokens ++ List.replicate (n - tokens.length) 0, ⟨[], true, true⟩) := by
  induction n generalizing tokens with
  | zero => simp at h
  | succ n ih =>
    cases tokens with
    | nil =>
      have : readVals n ⟨[], true, true⟩ = (List.replicate n 0, ⟨[], true, true⟩) :=
        readVals_failbit n _ rfl
      simp [readVals, readDouble, this, List.replicate_succ]
    | cons v rest =>
      have hr : rest.length < n := by simpa using h
      simp [readVals, readDouble, ih rest hr]

lemma loadBenchmarkData_failbit (fuel : ℕ) (s : IStream) (counter : ℕ)
    (hf : s.failbit = true) (he : s.eofbit = false) :
    loadBenchmarkData fuel s counter = none := by
  induction fuel generalizing counter with
  | zero => rfl
  | succ fuel ih =>
    simp only [loadBenchmarkData, he, readVals_failbit 7 s hf]
    simp [ih (counter + 1)]

lemma getD_replicate_zero (n i : ℕ) :
    (List.replicate n (0 : ℚ)).getD i 0 = 0 := by
  induction n generalizing i with
  | zero => simp [List.getD]
  | succ n ih =>
    cases i with
    | zero => simp [List.replicate_succ]
    | succ i => simp [List.replicate_succ, ih i]

lemma loadBenchmarkData_run (N : ℕ) :
    ∀ (tokens : List ℚ) (counter fuel : ℕ), tokens.length = 7 * N →
      N + 2 ≤ fuel →
      loadBenchmarkData fuel ⟨tokens, false, false⟩ counter =
        some (loadedBenchmarkEntries tokens counter N) := by
  induction N with
  | zero =>
    intro tokens counter fuel hlen hfuel
    have htok : tokens = [] := List.eq_nil_of_length_eq_zero (by simpa using hlen)
    subst htok
    obtain ⟨f, rfl⟩ : ∃ f, fuel = f + 1 := ⟨fuel - 1, by omega⟩
    have hf : 1 ≤ f := by omega
    obtain ⟨g, rfl⟩ : ∃ g, f = g + 1 := ⟨f - 1, by omega⟩
    have hreads : readVals 7 ⟨([] : List ℚ), false, false⟩ =
        (List.replicate 7 0, ⟨[], true, true⟩) := by
      simpa using readVals_of_lt 7 [] (by simp)
    have hentry : (fun i => (List.replicate 7 (0 : ℚ)).getD (i + 1) 0) =
        (fun _ => (0 : ℚ)) := by
      funext i
      exact getD_replicate_zero 7 (i + 1)
    simp only [loadBenchmarkData, hreads, loadedBenchmarkEntries]
    simp
    funext i
    rcases i with _ | _ | _ | _ | _ | _ | i <;> rfl
  | succ N ih =>
    intro tokens counter fuel hlen hfuel
    obtain ⟨f, rfl⟩ : ∃ f, fuel = f + 1 := ⟨fuel - 1, by omega⟩
    have h7 : 7 ≤ tokens.length := by omega
    have hreads := readVals_of_le 7 tokens h7
    have hdrop : (tokens.drop 7).length = 7 * N := by
      simp [List.length_drop, hlen]
      omega
    have hrec := ih (tokens.drop 7) (counter + 1) f hdrop (by omega)
    simp [loadBenchmarkData, hreads, hrec, loadedBenchmarkEntries]

lemma loadBenchmarkData_terminates (fuel : ℕ) :
    ∀ (tokens : List ℚ) (counter : ℕ), tokens.length + 2 ≤ fuel →
      ∃ l, loadBenchmarkData fuel ⟨tokens, false, false⟩ counter = some l := by
  induction fuel with
  | zero =>
    intro tokens counter h
    omega
  | succ fuel ih =>
    intro tokens counter h
    by_cases h7 : tokens.length < 7
    · have hreads := readVals_of_lt 7 tokens h7
      obtain ⟨g, rfl⟩ : ∃ g, fuel = g + 1 := ⟨fuel - 1, by omega⟩
      have hrec : loadBenchmarkData (g + 1) ⟨[], true, true⟩ (counter + 1) = some [] := by
        simp [loadBenchmarkData]
      simp only [loadBenchmarkData, hreads, hrec]
      exact ⟨_, rfl⟩
    · have hreads := readVals_of_le 7 tokens (by omega)
      have hdrop : (tokens.drop 7).length + 2 ≤ fuel := by
        simp [List.length_drop]
        omega
      obtain ⟨l, hl⟩ := ih (tokens.drop 7) (counter + 1) hdrop
      simp only [loadBenchmarkData, hreads, hl]
      exact ⟨_, rfl⟩

lemma loadedBenchmarkEntries_length (N : ℕ) :
    ∀ (tokens : List ℚ) (counter : ℕ),
      (loadedBenchmarkEntries tokens counter N).length = N + 1 := by
  induction N with
  | zero => intro tokens counter; rfl
  | succ N ih => intro tokens counter; simp [loadedBenchmarkEntries, ih]

lemma loadedBenchmarkEntries_keys (N : ℕ) :
    ∀ (tokens : List ℚ) (counter : ℕ),
      (loadedBenchmarkEntries tokens counter N).map Prod.fst =
        (List.range (N + 1)).map (fun k => ((counter + k : ℕ) : ℚ) * 3600) := by
  induction N with
  | zero => intro tokens counter; simp [loadedBenchmarkEntries, List.range_succ]
  | succ N ih =>
    intro tokens counter
    have hfun : (fun k : ℕ => ((counter + 1 + k : ℕ) : ℚ) * 3600) =
        ((fun k : ℕ => ((counter + k : ℕ) : ℚ) * 3600) ∘ Nat.succ) := by
      funext k
      have h : counter + 1 + k = counter + Nat.succ k := by omega
      simp [Function.comp, h]
    simp only [loadedBenchmarkEntries, List.map_cons]
    rw [List.range_succ_eq_map, List.map_cons, List.map_map, ih, hfun]
    norm_num

lemma loadedBenchmarkEntries_getLast (N : ℕ) :
    ∀ (tokens : List ℚ) (counter : ℕ),
      (loadedBenchmarkEntries tokens counter N).getLast? =
        some (((counter + N : ℕ) : ℚ) * 3600, fun _ => 0) := by
  induction N with
  | zero => intro tokens counter; simp [loadedBenchmarkEntries]
  | succ N ih =>
    intro tokens counter
    have hne : loadedBenchmarkEntries (tokens.drop 7) (counter + 1) N ≠ [] := by
      intro h
      have hlen := loadedBenchmarkEntries_length N (tokens.drop 7) (counter + 1)
      rw [h] at hlen
      simp at hlen
    obtain ⟨y, l0, hrest⟩ := List.exists_cons_of_ne_nil hne
    simp only [loadedBenchmarkEntries]
    rw [hrest, List.getLast?_cons_cons, ← hrest, ih]
    have h : counter + 1 + N = counter + (N + 1) := by omega
    rw [h]

/-- C9: a benchmark file with `N` complete 7-column records makes the
`!eof()`-guarded loading loop run `N + 1` times: the resulting history
has `N + 1` entries at keys `0, 3600, …, N·3600`, and the final entry
(at key `N·3600`) comes from failed end-of-file extractions — its state
is the default one, independent of the file's data. -/
theorem loadBenchmarkData_overshoot_record (N : ℕ) (tokens : List ℚ) (fuel : ℕ)
    (hlen : tokens.length = 7 * N) (hfuel : N + 2 ≤ fuel) :
    ∃ l, loadBenchmarkData fuel ⟨tokens, false, false⟩ 0 = some l ∧
      l.length = N + 1 ∧
      l.map Prod.fst = (List.range (N + 1)).map (fun k : ℕ => (k : ℚ) * 3600) ∧
      l.getLast? = some ((N : ℚ) * 3600, fun _ => (0 : ℚ)) := by
  refine ⟨loadedBenchmarkEntries tokens 0 N,
    loadBenchmarkData_run N tokens 0 fuel hlen hfuel,
    loadedBenchmarkEntries_length N tokens 0, ?_, ?_⟩
  · have h := loadedBenchmarkEntries_keys N tokens 0
    have hf : (fun k : ℕ => (k : ℚ) * 3600) =
        (fun k : ℕ => ((0 + k : ℕ) : ℚ) * 3600) := by
      funext k
      norm_num
    rw [hf]
    exact h
  · have h := loadedBenchmarkEntries_getLast N tokens 0
    simpa using h

/-- Witness for C9: a one-record file `0 9 9 9 9 9 9` loads into two
entries, at keys `0` and `3600`. -/
theorem loadBenchmarkData_overshoot_record_witness :
    (([0, 9, 9, 9, 9, 9, 9] : List ℚ).length = 7 * 1 ∧ 1 + 2 ≤ 3) ∧
      ∃ l, loadBenchmarkData 3 ⟨[0, 9, 9, 9, 9, 9, 9], false, false⟩ 0 = some l ∧
        l.length = 1 + 1 ∧
        l.map Prod.fst = (List.range (1 + 1)).map (fun k : ℕ => (k : ℚ) * 3600) ∧
        l.getLast? = some ((1 : ℚ) * 3600, fun _ => (0 : ℚ)) :=
  ⟨⟨by decide, by decide⟩,
    loadBenchmarkData_overshoot_record 1 [0, 9, 9, 9, 9, 9, 9] 3 (by decide) (by decide)⟩

/-- C2: the comparison loop runs
`getPropagationIntervalStart() / getFixedOutputInterval() = 0 / 3600 = 0`
times, so for every benchmark-file content and every history the
propagator produces, `testKeplerPropagator` returns `false` (test
passes). -/
theorem testKeplerPropagator_always_passes (tokens : List ℚ)
    (core : CState → List (ℚ × CState)) (fuel : ℕ)
    (hfuel : tokens.length + 2 ≤ fuel) :
    comparisonCount = 0 ∧ testKeplerPropagator fuel true tokens core = some false := by
  have hcount : comparisonCount = 0 := by
    norm_num [comparisonCount, propagationIntervalStart, fixedOutputInterval]
  refine ⟨hcount, ?_⟩
  obtain ⟨l, hl⟩ := loadBenchmarkData_terminates fuel tokens 0 hfuel
  simp only [testKeplerPropagator, Bool.not_true, hl]
  simp [compareLoop, hcount]

/-- Witness for C2 at the empty benchmark file and an empty core
history. -/
theorem testKeplerPropagator_always_passes_witness :
    (([] : List ℚ).length + 2 ≤ 2) ∧
      (comparisonCount = 0 ∧ testKeplerPropagator 2 true [] (fun _ => []) = some false) :=
  ⟨by decide, testKeplerPropagator_always_passes [] (fun _ => []) 2 (by decide)⟩

lemma testKeplerPropagator_failbit (fuel : ℕ) (tokens : List ℚ)
    (core : CState → List (ℚ × CState)) :
    testKeplerPropagator fuel false tokens core = none := by
  have h := loadBenchmarkData_failbit fuel ⟨tokens, true, false⟩ 0 rfl rfl
  simp [testKeplerPropagator, h]

/-- C1 (evaluation at a failing input): the benchmark record
`0 9 9 9 9 9 9` puts the state `(9, 9, 9, 9, 9, 9)` km at key `0`,
while the propagator history holds `42` m (`0.042` km) in every
component at key `0` — a component difference of about `8.958` km, far
above the `1e-6` tolerance — yet `testKeplerPropagator` still returns
`false` (test passed), because the comparison loop's upper bound is
`getPropagationIntervalStart() / getFixedOutputInterval() = 0`. -/
theorem testKeplerPropagator_ignores_divergent_data :
    |histState (asterixHistoryKm (fun _ => [(0, fun _ => 42)])) 0 0
        - histState (loadedBenchmarkEntries [0, 9, 9, 9, 9, 9, 9] 0 1) 0 0|
      > toleranceBetweenBenchmarkAndSimulationData ∧
    loadBenchmarkData 3 ⟨[0, 9, 9, 9, 9, 9, 9], false, false⟩ 0 =
      some (loadedBenchmarkEntries [0, 9, 9, 9, 9, 9, 9] 0 1) ∧
    testKeplerPropagator 3 true [0, 9, 9, 9, 9, 9, 9]
      (fun _ => [(0, fun _ => 42)]) = some false := by
  have hload := loadBenchmarkData_run 1 [0, 9, 9, 9, 9, 9, 9] 0 3 (by norm_num) (by norm_num)
  refine ⟨?_, hload, ?_⟩
  · have h1 : histState (asterixHistoryKm (fun _ => [(0, fun _ => 42)])) 0 0 = 42 / 1000 := rfl
    have h2 : histState (loadedBenchmarkEntries [0, 9, 9, 9, 9, 9, 9] 0 1) 0 0 = 9 := by
      simp [histState, loadedBenchmarkEntries, List.find?]
    rw [h1, h2]
    rw [show |(42 : ℚ) / 1000 - 9| = 9 - 42 / 1000 by
      rw [abs_sub_comm, abs_of_nonneg (by norm_num)]]
    norm_num [toleranceBetweenBenchmarkAndSimulationData]
  · have hcount : comparisonCount = 0 := by
      norm_num [comparisonCount, propagationIntervalStart, fixedOutputInterval]
    simp only [testKeplerPropagator, Bool.not_true, hload]
    simp [compareLoop, hcount]

/-- C10 counterexample: with the benchmark file not opened (`failbit`
set on the stream), `testKeplerPropagator` produces no verdict even
after a million loading-loop iterations — the loop never exits, because
a failed extraction on a `failbit` stream never sets `eofbit`. -/
theorem testKeplerPropagator_unopened_file_no_verdict :
    testKeplerPropagator 1000000 false [] (fun _ => []) = none :=
  testKeplerPropagator_failbit 1000000 [] (fun _ => [])

/-- C10 amended: when the benchmark file cannot be opened the harness
only prints to `cerr` and does not abort, raise, or return early, but
the benchmark-loading loop it then enters never terminates (`eof()`
never becomes true on the failed stream), so `testKeplerPropagator`
never reaches the propagation and comparison stages and never returns a
verdict: for every fuel, every file content and every core, the
embedding returns `none`. -/
theorem testKeplerPropagator_unopened_file_diverges (fuel : ℕ) (tokens : List ℚ)
    (core : CState → List (ℚ × CState)) :
    testKeplerPropagator fuel false tokens core = none :=
  testKeplerPropagator_failbit fuel tokens core

/-- C5: the harness applies `convertKilometersToMeters` to the
kilometer-valued initial state before handing it to `setInitialState`,
applies `convertMetersToKilometers` to every state of the history the
core returned before any comparison, and the two conversions are exact
mutual inverses, so all values crossing the core boundary are SI and no
unit conversion happens inside the core calls. -/
theorem harness_units_boundary (core : CState → List (ℚ × CState)) :
    (∀ i, stateOfAsterixSI i = stateOfAsterixKm i * 1000) ∧
    asterixHistoryKm core =
      (core stateOfAsterixSI).map (fun p => (p.1, fun i => p.2 i / 1000)) ∧
    (∀ s : CState, ∀ i, convertMetersToKilometers (convertKilometersToMeters s) i = s i) ∧
    (∀ s : CState, ∀ i, convertKilometersToMeters (convertMetersToKilometers s) i = s i) := by
  refine ⟨fun i => rfl, rfl, ?_, ?_⟩
  · intro s i
    show s i * 1000 / 1000 = s i
    rw [mul_div_assoc]
    norm_num
  · intro s i
    show s i / 1000 * 1000 = s i
    rw [div_mul_eq_mul_div, mul_div_assoc]
    norm_num

/-- C8: the state the harness fills in is
`(6.75e3, 0, 0, 0, 8.0595973215, 0)` in kilometers, and after
`convertKilometersToMeters` the state handed to `setInitialState` is
`(6.75e6 m, 0, 0, 0, 8059.5973215 m/s, 0)`. -/
theorem stateOfAsterix_initial_values :
    stateOfAsterixKm 0 = 6.75e3 ∧ stateOfAsterixKm 1 = 0 ∧ stateOfAsterixKm 2 = 0 ∧
    stateOfAsterixKm 3 = 0 ∧ stateOfAsterixKm 4 = 8.0595973215 ∧ stateOfAsterixKm 5 = 0 ∧
    stateOfAsterixSI 0 = 6.75e6 ∧ stateOfAsterixSI 1 = 0 ∧ stateOfAsterixSI 2 = 0 ∧
    stateOfAsterixSI 3 = 0 ∧ stateOfAsterixSI 4 = 8059.5973215 ∧ stateOfAsterixSI 5 = 0 := by
  refine ⟨rfl, rfl, rfl, rfl, rfl, rfl, ?_, ?_, ?_, ?_, ?_, ?_⟩
  · show stateOfAsterixKm 0 * 1000 = 6.75e6
    rw [show stateOfAsterixKm 0 = 6.75e3 from rfl]
    norm_num
  · show stateOfAsterixKm 1 * 1000 = 0
    rw [show stateOfAsterixKm 1 = 0 from rfl]
    norm_num
  · show stateOfAsterixKm 2 * 1000 = 0
    rw [show stateOfAsterixKm 2 = 0 from rfl]
    norm_num
  · show stateOfAsterixKm 3 * 1000 = 0
    rw [show stateOfAsterixKm 3 = 0 from rfl]
    norm_num
  · show stateOfAsterixKm 4 * 1000 = 8059.5973215
    rw [show stateOfAsterixKm 4 = 8.0595973215 from rfl]
    norm_num
  · show stateOfAsterixKm 5 * 1000 = 0
    rw [show stateOfAsterixKm 5 = 0 from rfl]
    norm_num

/-- C7: with eccentricity exactly zero, one Newton-Raphson step from the
initial guess `E₀ = M` is a fixed point — `E₁ = M − (M − 0 − M)/(1 − 0) = M` —
so the convergence criterion holds immediately and the solver returns
`E = M` after exactly one iteration, whatever `sin`, `cos`, `M`, the
(positive) tolerance and the (nonzero) iteration cap are. -/
theorem solveKeplerEquation_circular_one_iteration (sin cos : ℚ → ℚ) (M tolerance : ℚ)
    (maxIterations : ℕ) (htol : 0 < tolerance) (hmax : 1 ≤ maxIterations) :
    solveKeplerEquation sin cos 0 M tolerance maxIterations = some (M, 1) := by
  obtain ⟨m, rfl⟩ : ∃ m, maxIterations = m + 1 := ⟨maxIterations - 1, by omega⟩
  have hstep : keplerNewtonRaphsonStep sin cos 0 M M = M := by
    simp [keplerNewtonRaphsonStep]
  simp [solveKeplerEquation, solveKeplerEquationLoop, hstep, htol]

/-- Witness for C7 at concrete trigonometric stand-ins and inputs. -/
theorem solveKeplerEquation_circular_one_iteration_witness :
    ((0 : ℚ) < 1 ∧ 1 ≤ 3) ∧
      solveKeplerEquation (fun _ => 0) (fun _ => 0) 0 5 1 3 = some (5, 1) :=
  ⟨⟨by norm_num, by norm_num⟩,
    solveKeplerEquation_circular_one_iteration (fun _ => 0) (fun _ => 0) 5 1 3
      (by norm_num) (by norm_num)⟩

lemma solveKeplerEquationLoop_cases (sin cos : ℚ → ℚ) (e M tolerance : ℚ) :
    ∀ (fuel : ℕ) (E : ℚ) (done : ℕ),
      (∃ Efinal used,
          solveKeplerEquationLoop sin cos e M tolerance fuel E done =
            some (Efinal, used) ∧ done < used ∧ used ≤ done + fuel) ∨
      (solveKeplerEquationLoop sin cos e M tolerance fuel E done = none ∧
        ∀ n < fuel,
          ¬ |(keplerNewtonRaphsonStep sin cos e M)^[n + 1] E
              - (keplerNewtonRaphsonStep sin cos e M)^[n] E| < tolerance) := by
  intro fuel
  induction fuel with
  | zero =>
    intro E done
    exact Or.inr ⟨rfl, fun n hn => absurd hn (Nat.not_lt_zero n)⟩
  | succ fuel ih =>
    intro E done
    by_cases hconv : |keplerNewtonRaphsonStep sin cos e M E - E| < tolerance
    · exact Or.inl ⟨keplerNewtonRaphsonStep sin cos e M E, done + 1,
        by simp [solveKeplerEquationLoop, hconv], by omega, by omega⟩
    · rcases ih (keplerNewtonRaphsonStep sin cos e M E) (done + 1) with
        ⟨Efinal, used, hEq, hlt, hle⟩ | ⟨hEq, hnone⟩
      · exact Or.inl ⟨Efinal, used, by simp [solveKeplerEquationLoop, hconv, hEq],
          by omega, by omega⟩
      · refine Or.inr ⟨by simp [solveKeplerEquationLoop, hconv, hEq], ?_⟩
        intro n hn
        cases n with
        | zero => simpa using hconv
        | succ n =>
          have h := hnone n (by omega)
          rw [Function.iterate_succ_apply, Function.iterate_succ_apply]
          exact h

/-- C6: every invocation of the Kepler-equation solver terminates with
one of two outcomes — either it converges after `used` Newton-Raphson
steps with `1 ≤ used ≤ maxIterations`, or it returns `ConvergenceError`
(`none`) and no consecutive pair of iterates within the cap ever met the
tolerance; no input makes the solve loop run beyond the cap. -/
theorem solveKeplerEquation_terminates_within_cap (sin cos : ℚ → ℚ)
    (e M tolerance : ℚ) (maxIterations : ℕ) :
    (∃ E used, solveKeplerEquation sin cos e M tolerance maxIterations =
        some (E, used) ∧ 1 ≤ used ∧ used ≤ maxIterations) ∨
    (solveKeplerEquation sin cos e M tolerance maxIterations = none ∧
      ∀ n < maxIterations,
        ¬ |(keplerNewtonRaphsonStep sin cos e M)^[n + 1] M
            - (keplerNewtonRaphsonStep sin cos e M)^[n] M| < tolerance) := by
  rcases solveKeplerEquationLoop_cases sin cos e M tolerance maxIterations M 0 with
    ⟨Efinal, used, hEq, hlt, hle⟩ | ⟨hEq, hnone⟩
  · exact Or.inl ⟨Efinal, used, hEq, by omega, by omega⟩
  · exact Or.inr ⟨hEq, hnone⟩

lemma buildSampleKeys_mem_form (intervalEnd interval : ℚ) :
    ∀ (fuel : ℕ) (t x : ℚ), x ∈ buildSampleKeys intervalEnd interval fuel t →
      (∃ j : ℕ, x = t + j * interval) ∧ x ≤ intervalEnd := by
  intro fuel
  induction fuel with
  | zero => intro t x hx; simp [buildSampleKeys] at hx
  | succ fuel ih =>
    intro t x hx
    by_cases ht : t ≤ intervalEnd
    · rw [buildSampleKeys, if_pos ht] at hx
      rcases List.mem_cons.mp hx with rfl | hx
      · exact ⟨⟨0, by norm_num⟩, ht⟩
      · obtain ⟨⟨j, hj⟩, hle⟩ := ih (t + interval) x hx
        refine ⟨⟨j + 1, ?_⟩, hle⟩
        rw [hj]
        push_cast
        ring
    · rw [buildSampleKeys, if_neg ht] at hx
      simp at hx

lemma buildSampleKeys_head (intervalEnd interval : ℚ) (fuel : ℕ) (t : ℚ) :
    buildSampleKeys intervalEnd interval fuel t = [] ∨
      (buildSampleKeys intervalEnd interval fuel t).head? = some t := by
  cases fuel with
  | zero => exact Or.inl rfl
  | succ fuel =>
    by_cases ht : t ≤ intervalEnd
    · exact Or.inr (by rw [buildSampleKeys, if_pos ht]; rfl)
    · exact Or.inl (by rw [buildSampleKeys, if_neg ht])

lemma buildSampleKeys_chain (intervalEnd interval : ℚ) (hpos : 0 < interval) :
    ∀ (fuel : ℕ) (t : ℚ),
      (buildSampleKeys intervalEnd interval fuel t).Chain' (· < ·) := by
  intro fuel
  induction fuel with
  | zero => intro t; simp [buildSampleKeys]
  | succ fuel ih =>
    intro t
    by_cases ht : t ≤ intervalEnd
    · rw [buildSampleKeys, if_pos ht, List.chain'_cons']
      refine ⟨?_, ih (t + interval)⟩
      intro y hy
      rcases buildSampleKeys_head intervalEnd interval fuel (t + interval) with h | h
      · rw [h] at hy; simp at hy
      · rw [h] at hy
        simp at hy
        subst hy
        linarith
    · rw [buildSampleKeys, if_neg ht]
      simp

lemma buildSampleKeys_complete (intervalEnd interval : ℚ) (hpos : 0 < interval) :
    ∀ (fuel : ℕ) (t : ℚ) (j : ℕ), j < fuel → t + j * interval ≤ intervalEnd →
      t + j * interval ∈ buildSampleKeys intervalEnd interval fuel t := by
  intro fuel
  induction fuel with
  | zero => intro t j hj hle; exact absurd hj (Nat.not_lt_zero j)
  | succ fuel ih =>
    intro t j hj hle
    have hnn : 0 ≤ (j : ℚ) * interval := by positivity
    have ht : t ≤ intervalEnd := by linarith
    rw [buildSampleKeys, if_pos ht]
    cases j with
    | zero =>
      simp
    | succ j =>
      refine List.mem_cons_of_mem _ ?_
      have harith : t + (((j : ℕ) + 1 : ℕ) : ℚ) * interval =
          (t + interval) + (j : ℚ) * interval := by
        push_cast
        ring
      rw [harith] at hle ⊢
      exact ih (t + interval) j (by omega) hle

/-- C3 (modelled from the spec): the keys produced by the sampling loop
of `propagate()` are exactly the instants
`intervalStart + j * fixedOutputInterval` that do not exceed
`intervalEnd`: every key has that form and is at most `intervalEnd`, the
keys are strictly increasing, the first key is `intervalStart`, every
such instant within the interval appears, and `intervalEnd` itself
appears exactly when it is such an exact multiple. -/
theorem propagationHistoryKeys_structure (intervalStart intervalEnd interval : ℚ)
    (hpos : 0 < interval) (hle : intervalStart ≤ intervalEnd) :
    (∀ x ∈ propagationHistoryKeys intervalStart intervalEnd interval,
        (∃ j : ℕ, x = intervalStart + j * interval) ∧ x ≤ intervalEnd) ∧
    (propagationHistoryKeys intervalStart intervalEnd interval).Chain' (· < ·) ∧
    (propagationHistoryKeys intervalStart intervalEnd interval).head? =
        some intervalStart ∧
    (∀ j : ℕ, intervalStart + j * interval ≤ intervalEnd →
        intervalStart + j * interval ∈
          propagationHistoryKeys intervalStart intervalEnd interval) ∧
    (intervalEnd ∈ propagationHistoryKeys intervalStart intervalEnd interval ↔
        ∃ j : ℕ, intervalEnd = intervalStart + j * interval) := by
  have hcomplete : ∀ j : ℕ, intervalStart + j * interval ≤ intervalEnd →
      intervalStart + j * interval ∈
        propagationHistoryKeys intervalStart intervalEnd interval := by
    intro j hj
    have hquot : (j : ℚ) ≤ (intervalEnd - intervalStart) / interval := by
      rw [le_div_iff₀ hpos]
      linarith
    have hfloor : j ≤ Nat.floor ((intervalEnd - intervalStart) / interval) :=
      Nat.le_floor hquot
    exact buildSampleKeys_complete intervalEnd interval hpos _ intervalStart j
      (by omega) hj
  refine ⟨fun x hx => buildSampleKeys_mem_form intervalEnd interval _ _ x hx,
    buildSampleKeys_chain intervalEnd interval hpos _ _, ?_, hcomplete, ?_⟩
  · rw [propagationHistoryKeys, buildSampleKeys, if_pos hle]
    rfl
  · constructor
    · intro hmem
      obtain ⟨⟨j, hj⟩, _⟩ :=
        buildSampleKeys_mem_form intervalEnd interval _ _ intervalEnd hmem
      exact ⟨j, hj⟩
    · rintro ⟨j, hj⟩
      have h := hcomplete j (le_of_eq hj.symm)
      rwa [← hj] at h

/-- Witness for C3 at `intervalStart = 0`, `intervalEnd = 10`,
`interval = 3` (keys `0, 3, 6, 9`; `10` is not a sample). -/
theorem propagationHistoryKeys_structure_witness :
    ((0 : ℚ) < 3 ∧ (0 : ℚ) ≤ 10) ∧
      ((∀ x ∈ propagationHistoryKeys 0 10 3,
          (∃ j : ℕ, x = 0 + j * 3) ∧ x ≤ 10) ∧
       (propagationHistoryKeys 0 10 3).Chain' (· < ·) ∧
       (propagationHistoryKeys 0 10 3).head? = some 0 ∧
       (∀ j : ℕ, (0 : ℚ) + j * 3 ≤ 10 →
          (0 : ℚ) + j * 3 ∈ propagationHistoryKeys 0 10 3) ∧
       ((10 : ℚ) ∈ propagationHistoryKeys 0 10 3 ↔
          ∃ j : ℕ, (10 : ℚ) = 0 + j * 3)) :=
  ⟨⟨by norm_num, by norm_num⟩,
    propagationHistoryKeys_structure 0 10 3 (by norm_num) (by norm_num)⟩
